import Mathlib

/-!
Shallow embedding of the core of `openclaw-security-center`:

* the normalized snapshot data model (`packages/agent` / `src/unnamed/part_004`),
* the risk scorer `computeRiskScore` and the remediation sort
  (`packages/server/src/render.ts`),
* the port-table parsers `parseLsofPorts` / `parseSsPorts`
  (`src/unnamed/part_004`),
* the per-platform signal-state derivations of `collectHostSignals`
  (`src/unnamed/part_004`),
* the regression rules of the `monitor` command
  (`packages/cli/src/cli.ts`),
* the structural diff `diffDeep` (`packages/cli/src/cli.ts`).

JavaScript machine numbers only ever hold small integers here (ports, pids,
scores), so they are modelled as `Nat`/`Int`.  Optional fields (`?.`) become
`Option`; a missing object and a present object with a missing `state` field
are indistinguishable through the `?.state` chains the code uses, so the
two-level optionality is flattened to a single `Option`.
-/

namespace OCSec

/-- Tri-state of a host security signal (`'on' | 'off' | 'unknown'`). -/
inductive SignalState where
  | on
  | off
  | unknown
deriving DecidableEq, Repr

/-- `ListeningPort` from the agent: `{port: number, pid: number | null, process: string}`. -/
structure ListeningPort where
  port : Nat
  pid : Option Nat
  process : String
deriving DecidableEq, Repr

/-- The only field of `CollectorResult` the scorer and monitor read is `ok`. -/
structure CollectorOk where
  ok : Bool
deriving DecidableEq, Repr

/-- `snap.openclaw`: the collector results the scorer and monitor consult.
`none` models an absent field (`securityAudit?` / `updateStatus?`). -/
structure OpenClawStatus where
  securityAudit : Option CollectorOk
  updateStatus : Option CollectorOk
deriving DecidableEq, Repr

/-- `snap.host`: each signal is the value of the `?.state` chain
(`none` = the signal object or its `state` field is absent), and
`listeningTcp` is `listening?.tcp`. -/
structure HostSignals where
  firewall : Option SignalState
  diskEncryption : Option SignalState
  autoUpdates : Option SignalState
  backups : Option SignalState
  listeningTcp : Option (List ListeningPort)
deriving DecidableEq, Repr

/-- The parts of `NormalizedSnapshot` read by the scorer and the monitor. -/
structure NormalizedSnapshot where
  host : HostSignals
  openclaw : OpenClawStatus
deriving DecidableEq, Repr

/-- One entry of the scorer's `deductions` array. -/
structure Deduction where
  reason : String
  points : Int
deriving DecidableEq, Repr

/-- Return value of `computeRiskScore`. -/
structure RiskResult where
  score : Int
  deductions : List Deduction
deriving DecidableEq, Repr

/-- `a?.ok` coerced to boolean, as in `!snap.openclaw.securityAudit?.ok`
(`undefined` is falsy). -/
def okOf (r : Option CollectorOk) : Bool :=
  (r.map CollectorOk.ok).getD false

/-- The running state of `computeRiskScore`: current score and the
deductions pushed so far, always updated in lockstep. -/
abbrev ScoreState := Int × List Deduction

/-- The firewall block of `computeRiskScore` (render.ts, lines 18-24). -/
def fwStep (s : Option SignalState) (st : ScoreState) : ScoreState :=
  if s = some .off then (st.1 - 30, st.2 ++ [⟨"Host firewall is off", -30⟩])
  else if s = some .unknown then
    (st.1 - 15, st.2 ++ [⟨"Host firewall state unknown", -15⟩])
  else st

/-- The disk-encryption block (render.ts, lines 26-32). -/
def deStep (s : Option SignalState) (st : ScoreState) : ScoreState :=
  if s = some .off then (st.1 - 25, st.2 ++ [⟨"Disk encryption is off", -25⟩])
  else if s = some .unknown then
    (st.1 - 10, st.2 ++ [⟨"Disk encryption state unknown", -10⟩])
  else st

/-- The auto-updates block (render.ts, lines 34-40). -/
def auStep (s : Option SignalState) (st : ScoreState) : ScoreState :=
  if s = some .off then (st.1 - 15, st.2 ++ [⟨"Auto-updates are off", -15⟩])
  else if s = some .unknown then
    (st.1 - 5, st.2 ++ [⟨"Auto-updates state unknown", -5⟩])
  else st

/-- The listening-ports block (render.ts, lines 42-46). -/
def portStep (tcpPorts : List ListeningPort) (st : ScoreState) : ScoreState :=
  if 5 < tcpPorts.length then
    (st.1 - 10, st.2 ++ [⟨toString tcpPorts.length ++ " listening ports (>5)", -10⟩])
  else st

/-- The security-audit block (render.ts, lines 48-51). -/
def auditStep (r : Option CollectorOk) (st : ScoreState) : ScoreState :=
  if okOf r = false then
    (st.1 - 20, st.2 ++ [⟨"OpenClaw security audit has errors", -20⟩])
  else st

/-- The update-status block (render.ts, lines 53-56). -/
def updateStep (r : Option CollectorOk) (st : ScoreState) : ScoreState :=
  if okOf r = false then
    (st.1 - 5, st.2 ++ [⟨"OpenClaw update status check failed", -5⟩])
  else st

/-- `computeRiskScore` (render.ts, lines 14-59): start at 100, run the six
rule blocks in source order, and clamp the final score with
`Math.max(0, score)`. -/
def computeRiskScore (snap : NormalizedSnapshot) : RiskResult :=
  let st :=
    updateStep snap.openclaw.updateStatus
      (auditStep snap.openclaw.securityAudit
        (portStep (snap.host.listeningTcp.getD [])
          (auStep snap.host.autoUpdates
            (deStep snap.host.diskEncryption
              (fwStep snap.host.firewall (100, []))))))
  ⟨max 0 st.1, st.2⟩

/-- Stable insertion step for the comparator `(a, b) => a.points - b.points`:
`d` goes in front of the first element strictly greater than it. -/
def insertByPoints (d : Deduction) : List Deduction → List Deduction
  | [] => [d]
  | e :: es => if e.points < d.points then e :: insertByPoints d es else d :: e :: es

/-- The sorted copy `[...deductions].sort((a, b) => a.points - b.points)`
built by `renderRemediations` (render.ts line 94): ascending by `points`,
stable, the input list untouched. -/
def sortByPoints : List Deduction → List Deduction
  | [] => []
  | d :: ds => insertByPoints d (sortByPoints ds)

/-- The deduction list is ascending by `points` (most negative first). -/
def pointsSorted (ds : List Deduction) : Prop :=
  ds.Chain' fun a b => a.points ≤ b.points

instance (ds : List Deduction) : Decidable (pointsSorted ds) :=
  inferInstanceAs (Decidable (ds.Chain' fun a b : Deduction => a.points ≤ b.points))

/-! ## The `monitor` command's regression rules (cli.ts, lines 408-441) -/

/-- Severity attached to a regression. -/
inductive Severity where
  | high
  | medium
  | low
deriving DecidableEq, Repr

/-- One entry of the monitor's `regressions` array. -/
structure Regression where
  field : String
  was : String
  now : String
  severity : Severity
deriving DecidableEq, Repr

/-- Render a signal state the way the template literals do. -/
def stateStr : SignalState → String
  | .on => "on"
  | .off => "off"
  | .unknown => "unknown"

/-- `latest.host.x?.state ?? 'unknown'`. -/
def stateOrUnknown (s : Option SignalState) : String :=
  stateStr (s.getD .unknown)

/-- JavaScript `Set` insertion semantics: keep the first occurrence of each
element.  Only size and membership of the set are consumed. -/
def dedupFirst {α : Type} [DecidableEq α] : List α → List α → List α
  | _, [] => []
  | seen, n :: ns =>
    if n ∈ seen then dedupFirst seen ns else n :: dedupFirst (n :: seen) ns

/-- The regression rules the `monitor` command evaluates on the previous and
latest snapshots (cli.ts, lines 408-441), in declaration order. -/
def monitorRegressions (previous latest : NormalizedSnapshot) : List Regression :=
  let fwRegs : List Regression :=
    if previous.host.firewall = some .on ∧ latest.host.firewall ≠ some .on then
      [⟨"host.firewall", "on", stateOrUnknown latest.host.firewall, .high⟩]
    else []
  let deRegs : List Regression :=
    if previous.host.diskEncryption = some .on ∧ latest.host.diskEncryption ≠ some .on then
      [⟨"host.diskEncryption", "on", stateOrUnknown latest.host.diskEncryption, .high⟩]
    else []
  let auRegs : List Regression :=
    if previous.host.autoUpdates = some .on ∧ latest.host.autoUpdates ≠ some .on then
      [⟨"host.autoUpdates", "on", stateOrUnknown latest.host.autoUpdates, .medium⟩]
    else []
  let prevPortNums := (previous.host.listeningTcp.getD []).map ListeningPort.port
  let prevPorts := dedupFirst [] prevPortNums
  let currPorts := latest.host.listeningTcp.getD []
  let newPorts := currPorts.filter fun p => p.port ∉ prevPortNums
  let portRegs : List Regression :=
    if newPorts ≠ [] then
      [⟨"host.listening.tcp",
        toString prevPorts.length ++ " ports",
        toString currPorts.length ++ " ports (new: " ++
          String.intercalate ", " (newPorts.map fun p => toString p.port) ++ ")",
        .medium⟩]
    else []
  let auditRegs : List Regression :=
    if okOf previous.openclaw.securityAudit = true ∧
        okOf latest.openclaw.securityAudit = false then
      [⟨"openclaw.securityAudit", "ok", "error", .high⟩]
    else []
  fwRegs ++ deRegs ++ auRegs ++ portRegs ++ auditRegs

/-! ## String utilities shared by the parsers

JavaScript string operations (`split`, `trim().split(/\s+/)`, `parseInt`,
`/:(\d+)$/`, `/pat/i.test`) re-expressed over `List Char`. -/

/-- Accumulator for `String.split` on a single separator character;
keeps empty segments, as `raw.split('\n')` does. -/
def splitCharAux (sep : Char) : List Char → List Char → List String
  | [], cur => [String.mk cur.reverse]
  | c :: cs, cur =>
    if c = sep then String.mk cur.reverse :: splitCharAux sep cs []
    else splitCharAux sep cs (c :: cur)

/-- `raw.split('\n')`. -/
def splitChar (sep : Char) (s : String) : List String :=
  splitCharAux sep s.data []

/-- Accumulator for whitespace tokenisation. -/
def wsTokensAux : List Char → List Char → List String
  | [], cur => if cur = [] then [] else [String.mk cur.reverse]
  | c :: cs, cur =>
    if c.isWhitespace then
      if cur = [] then wsTokensAux cs []
      else String.mk cur.reverse :: wsTokensAux cs []
    else wsTokensAux cs (c :: cur)

/-- `line.trim().split(/\s+/)`: the maximal non-whitespace runs of the line.
(On an all-whitespace line JS yields `[""]` and this yields `[]`; both fall
below every column-count guard of the parsers, so no caller distinguishes
them.) -/
def wsTokens (s : String) : List String :=
  wsTokensAux s.data []

/-- Numeric value of a decimal digit character. -/
def digitVal (c : Char) : Nat :=
  c.toNat - '0'.toNat

/-- Decimal value of a digit string, most significant first. -/
def digitsToNat (ds : List Char) : Nat :=
  ds.foldl (fun n c => 10 * n + digitVal c) 0

/-- `name.match(/:(\d+)$/)` followed by `parseInt` of the capture: the
maximal all-digit suffix of the token, required non-empty and preceded by a
colon. -/
def portOfToken (s : String) : Option Nat :=
  let r := s.data.reverse
  let ds := r.takeWhile Char.isDigit
  if ds = [] then none
  else
    match r.drop ds.length with
    | ':' :: _ => some (digitsToNat ds.reverse)
    | _ => none

/-- `parseInt(tok, 10)` on a whitespace-free token: value of the maximal
digit-prefix, `NaN` (here `none`) when there is none. -/
def parseIntDec (s : String) : Option Nat :=
  let ds := s.data.takeWhile Char.isDigit
  if ds = [] then none else some (digitsToNat ds)

/-- `parseInt(x, 10) || null`: both `NaN` and `0` collapse to `null`. -/
def intOrNull (s : String) : Option Nat :=
  match parseIntDec s with
  | some 0 => none
  | r => r

/-- Does `pat` occur at the head of the second list?
(`line.startsWith(pat)` on the character lists.) -/
def headMatch : List Char → List Char → Bool
  | [], _ => true
  | _ :: _, [] => false
  | p :: ps, c :: cs => p = c && headMatch ps cs

/-- Does `pat` occur anywhere in the second list? -/
def containsSub : List Char → List Char → Bool
  | pat, [] => headMatch pat []
  | pat, c :: cs => headMatch pat (c :: cs) || containsSub pat cs

/-! ## Port table parsers (agent `index.ts`, `src/unnamed/part_004`) -/

/-- One line of `lsof -nP -iTCP -sTCP:LISTEN` output: skip the `COMMAND`
header and lines with fewer than 9 columns; process is column 0, pid is
column 1 through `parseInt(..) || null`, and the port is the trailing
`:digits` of the last column. -/
def lsofLine (line : String) : Option ListeningPort :=
  if headMatch "COMMAND".data line.data then none
  else
    let parts := wsTokens line
    if parts.length < 9 then none
    else
      match portOfToken (parts.getLastD "") with
      | none => none
      | some port => some ⟨port, intOrNull (parts.getD 1 ""), parts.headD ""⟩

/-- Head match of the regex `\("([^"]+)",pid=(\d+)` at the start of the
character list: literal `("`, a non-empty run of non-quote characters, then
the literal `",pid=` and a non-empty digit run. -/
def procPidAt (cs : List Char) : Option (String × Nat) :=
  match cs with
  | '(' :: '"' :: rest =>
    let name := rest.takeWhile fun c => c ≠ '"'
    if name = [] then none
    else
      match rest.drop name.length with
      | '"' :: ',' :: 'p' :: 'i' :: 'd' :: '=' :: tail =>
        let ds := tail.takeWhile Char.isDigit
        if ds = [] then none else some (String.mk name, digitsToNat ds)
      | _ => none
  | _ => none

/-- `rest.match(/\("([^"]+)",pid=(\d+)/)`: leftmost occurrence. -/
def findProcPid : List Char → Option (String × Nat)
  | [] => none
  | c :: cs =>
    match procPidAt (c :: cs) with
    | some r => some r
    | none => findProcPid cs

/-- One line of `ss -ltnp` output: skip the `State`/`Netid` headers and lines
with fewer than 5 columns; the port is the trailing `:digits` of column 3,
and process/pid come from the first `("name",pid=digits` in the columns from
index 5 on, re-joined by single blanks; without it they default to
`"unknown"`/`null`. -/
def ssLine (line : String) : Option ListeningPort :=
  if headMatch "State".data line.data then none
  else if headMatch "Netid".data line.data then none
  else
    let parts := wsTokens line
    if parts.length < 5 then none
    else
      match portOfToken (parts.getD 3 "") with
      | none => none
      | some port =>
        match findProcPid (String.intercalate " " (parts.drop 5)).data with
        | some (name, pid) => some ⟨port, some pid, name⟩
        | none => some ⟨port, none, "unknown"⟩

/-- The shared scan both parsers perform: walk the lines in order, keep each
parsed record whose port was not seen before, and remember the seen ports
(the `seen` set of the source). -/
def portLoop (parse : String → Option ListeningPort) :
    List String → List Nat → List ListeningPort
  | [], _ => []
  | line :: ls, seen =>
    match parse line with
    | none => portLoop parse ls seen
    | some r =>
      if r.port ∈ seen then portLoop parse ls seen
      else r :: portLoop parse ls (r.port :: seen)

/-- `parseLsofPorts` (part_004, lines 72-93). -/
def parseLsofPorts (raw : String) : List ListeningPort :=
  portLoop lsofLine (splitChar '\n' raw) []

/-- `parseSsPorts` (part_004, lines 96-119). -/
def parseSsPorts (raw : String) : List ListeningPort :=
  portLoop ssLine (splitChar '\n' raw) []

/-! ## Signal-state derivations of `collectHostSignals` (part_004)

The command execution is I/O; what is modelled is the pure derivation of
each `state` field from the command's `CollectorResult`. -/

/-- The fields of a `CollectorResult<string>` the derivations read. -/
structure CollectorResultS where
  ok : Bool
  value : Option String
deriving DecidableEq, Repr

/-- `/pat/i.test(s)` for a pattern of plain characters: case-insensitive
substring test. -/
def testCI (pat s : String) : Bool :=
  containsSub (pat.data.map Char.toLower) (s.data.map Char.toLower)

/-- macOS firewall: `fw.ok ? (/enabled/i ? 'on' : /disabled/i ? 'off' :
'unknown') : 'unknown'`. -/
def darwinFirewallState (r : CollectorResultS) : SignalState :=
  if r.ok then
    if testCI "enabled" (r.value.getD "") then .on
    else if testCI "disabled" (r.value.getD "") then .off
    else .unknown
  else .unknown

/-- macOS FileVault: `/FileVault is On/i ? 'on' : /Off/i ? 'off' : 'unknown'`
when `ok`, else `'unknown'`. -/
def darwinDiskEncryptionState (r : CollectorResultS) : SignalState :=
  if r.ok then
    if testCI "FileVault is On" (r.value.getD "") then .on
    else if testCI "Off" (r.value.getD "") then .off
    else .unknown
  else .unknown

/-- macOS software update schedule: `/on/i ? 'on' : /off/i ? 'off' :
'unknown'` when `ok`, else `'unknown'`. -/
def darwinAutoUpdatesState (r : CollectorResultS) : SignalState :=
  if r.ok then
    if testCI "on" (r.value.getD "") then .on
    else if testCI "off" (r.value.getD "") then .off
    else .unknown
  else .unknown

/-- macOS Time Machine: `/Running/i ? 'on' : 'unknown'` when `ok`, else
`'unknown'`. -/
def darwinBackupsState (r : CollectorResultS) : SignalState :=
  if r.ok then
    if testCI "Running" (r.value.getD "") then .on else .unknown
  else .unknown

/-- Linux ufw: `/Status: active/i ? 'on' : /inactive/i ? 'off' : 'unknown'`
when `ok`, else `'unknown'`. -/
def linuxFirewallState (r : CollectorResultS) : SignalState :=
  if r.ok then
    if testCI "Status: active" (r.value.getD "") then .on
    else if testCI "inactive" (r.value.getD "") then .off
    else .unknown
  else .unknown

/-- Linux disk encryption is reported `'unknown'` unconditionally. -/
def linuxDiskEncryptionState (_ : CollectorResultS) : SignalState :=
  .unknown

/-- Linux unattended-upgrades: `unattended.ok ? (/enabled/i ? 'on' : 'off') :
'unknown'` — note the `ok` branch never yields `'unknown'`. -/
def linuxAutoUpdatesState (r : CollectorResultS) : SignalState :=
  if r.ok then
    if testCI "enabled" (r.value.getD "") then .on else .off
  else .unknown

/-! ## The structural diff `diffDeep` (cli.ts, lines 286-308)

`diffDeep` walks arbitrary JSON-like values, so the model introduces a small
JSON value type.  In JavaScript, `typeof x === 'object' && x` holds exactly
for (non-null) objects and arrays, and `Object.keys` of an array is its list
of decimal indices. -/

/-- JSON-like runtime values as the diff sees them. -/
inductive JVal where
  | null
  | bool (b : Bool)
  | num (n : Int)
  | str (s : String)
  | arr (xs : List JVal)
  | obj (fields : List (String × JVal))

mutual

/-- Structural equality of values; stands for the
`JSON.stringify(pa) !== JSON.stringify(pb)` leaf comparison (stringify is
injective on these values up to field order, which snapshots never vary). -/
def JVal.beq : JVal → JVal → Bool
  | .null, .null => true
  | .bool a, .bool b => a == b
  | .num a, .num b => a == b
  | .str a, .str b => a == b
  | .arr xs, .arr ys => JVal.beqArr xs ys
  | .obj fs, .obj gs => JVal.beqObj fs gs
  | _, _ => false

/-- Element-wise equality of arrays. -/
def JVal.beqArr : List JVal → List JVal → Bool
  | [], [] => true
  | x :: xs, y :: ys => JVal.beq x y && JVal.beqArr xs ys
  | _, _ => false

/-- Field-wise equality of objects. -/
def JVal.beqObj : List (String × JVal) → List (String × JVal) → Bool
  | [], [] => true
  | (k, v) :: fs, (l, w) :: gs => k == l && JVal.beq v w && JVal.beqObj fs gs
  | _, _ => false

end

mutual

/-- Structural size of a value, used as the recursion-depth budget below. -/
def JVal.size : JVal → Nat
  | .arr xs => 1 + JVal.sizeArr xs
  | .obj fs => 1 + JVal.sizeObj fs
  | _ => 1

/-- Summed size of array elements. -/
def JVal.sizeArr : List JVal → Nat
  | [] => 0
  | x :: xs => JVal.size x + JVal.sizeArr xs

/-- Summed size of object field values. -/
def JVal.sizeObj : List (String × JVal) → Nat
  | [] => 0
  | (_, v) :: fs => JVal.size v + JVal.sizeObj fs

end

/-- `Object.keys` paired with the values: object fields as themselves, array
elements keyed by their decimal index, and no own keys otherwise. -/
def entries : JVal → List (String × JVal)
  | .obj fs => fs
  | .arr xs => xs.enum.map fun p => (Nat.repr p.1, p.2)
  | _ => []

/-- `v?.[k]`: property lookup, `undefined` as `none`. -/
def jget (v : JVal) (k : String) : Option JVal :=
  (entries v).lookup k

/-- `typeof x === 'object' && x`: non-null objects and arrays. -/
def isObjLike : JVal → Bool
  | .arr _ => true
  | .obj _ => true
  | _ => false

/-- `prefix ? prefix + '.' + k : k`. -/
def joinPath (pre k : String) : String :=
  if pre = "" then k else pre ++ "." ++ k

/-- `added | removed | changed`. -/
inductive DiffKind where
  | added
  | removed
  | changed
deriving DecidableEq, Repr

/-- One entry of the diff output. -/
structure DiffEntry where
  path : String
  kind : DiffKind
  oldValue : Option JVal
  newValue : Option JVal

/-- The per-key body of the `diffDeep` loop, abstracted over the recursive
call `rec`: a key absent on one side is `added`/`removed`, two object-like
values recurse with the path extended by `.key`, and anything else is
compared as a serialized leaf (`changed` when unequal). -/
def diffKeyWith (rec : JVal → JVal → String → List DiffEntry)
    (a b : JVal) (pre k : String) : List DiffEntry :=
  let p := joinPath pre k
  match jget a k, jget b k with
  | none, some v => [⟨p, .added, none, some v⟩]
  | some v, none => [⟨p, .removed, some v, none⟩]
  | some va, some vb =>
    if isObjLike va && isObjLike vb then rec va vb p
    else if JVal.beq va vb then [] else [⟨p, .changed, some va, some vb⟩]
  | none, none => []

/-- `diffDeep`, indexed by a recursion-depth bound: walk the union of the two
key sets in first-seen order and handle each key with `diffKeyWith`.  The
fuel only bounds the depth of the recursion into nested values; `diffDeep`
below always supplies enough. -/
def diffDeepF : Nat → JVal → JVal → String → List DiffEntry
  | 0, _, _, _ => []
  | fuel + 1, a, b, pre =>
    (dedupFirst [] ((entries a).map Prod.fst ++ (entries b).map Prod.fst)).flatMap
      (diffKeyWith (diffDeepF fuel) a b pre)

/-- `diffDeep(a, b)` with the prefix argument explicit.  Every recursive call
of the source descends into values nested strictly inside both arguments, so
`JVal.size a + JVal.size b` steps of fuel always suffice (`diffDeepF_stable`
below). -/
def diffDeep (a b : JVal) (pre : String) : List DiffEntry :=
  diffDeepF (JVal.size a + JVal.size b) a b pre

/-- The paths of the entries a diff reports as `added`. -/
def addedPaths (l : List DiffEntry) : List String :=
  (l.filter fun e => e.kind = DiffKind.added).map DiffEntry.path

/-- The paths of the entries a diff reports as `removed`. -/
def removedPaths (l : List DiffEntry) : List String :=
  (l.filter fun e => e.kind = DiffKind.removed).map DiffEntry.path

/-! ## Helper lemmas -/

theorem fwStep_fst_le (s : Option SignalState) (st : ScoreState) :
    (fwStep s st).1 ≤ st.1 := by
  unfold fwStep; split_ifs <;> simp

theorem deStep_fst_le (s : Option SignalState) (st : ScoreState) :
    (deStep s st).1 ≤ st.1 := by
  unfold deStep; split_ifs <;> simp

theorem auStep_fst_le (s : Option SignalState) (st : ScoreState) :
    (auStep s st).1 ≤ st.1 := by
  unfold auStep; split_ifs <;> simp

theorem portStep_fst_le (tcp : List ListeningPort) (st : ScoreState) :
    (portStep tcp st).1 ≤ st.1 := by
  unfold portStep; split_ifs <;> simp

theorem auditStep_fst_le (r : Option CollectorOk) (st : ScoreState) :
    (auditStep r st).1 ≤ st.1 := by
  unfold auditStep; split_ifs <;> simp

theorem updateStep_fst_le (r : Option CollectorOk) (st : ScoreState) :
    (updateStep r st).1 ≤ st.1 := by
  unfold updateStep; split_ifs <;> simp

theorem fwStep_on (st : ScoreState) : fwStep (some .on) st = st := by
  simp [fwStep]

theorem deStep_on (st : ScoreState) : deStep (some .on) st = st := by
  simp [deStep]

theorem auStep_on (st : ScoreState) : auStep (some .on) st = st := by
  simp [auStep]

theorem portStep_id {tcp : List ListeningPort} (st : ScoreState)
    (h : ¬ 5 < tcp.length) : portStep tcp st = st := by
  simp [portStep, h]

theorem auditStep_ok {r : Option CollectorOk} (st : ScoreState)
    (h : okOf r = true) : auditStep r st = st := by
  simp [auditStep, h]

theorem updateStep_ok {r : Option CollectorOk} (st : ScoreState)
    (h : okOf r = true) : updateStep r st = st := by
  simp [updateStep, h]

theorem updateStep_mem {d : Deduction} {r : Option CollectorOk}
    {st : ScoreState} (h : d ∈ st.2) : d ∈ (updateStep r st).2 := by
  unfold updateStep; split_ifs <;> simp [h]

theorem mem_insertByPoints {x d : Deduction} {ds : List Deduction} :
    x ∈ insertByPoints d ds ↔ x = d ∨ x ∈ ds := by
  induction ds with
  | nil => simp [insertByPoints]
  | cons e es ih =>
    simp only [insertByPoints]
    split
    · simp only [List.mem_cons, ih]
      tauto
    · simp only [List.mem_cons]

theorem pairwise_insertByPoints {d : Deduction} {ds : List Deduction}
    (h : ds.Pairwise fun a b => a.points ≤ b.points) :
    (insertByPoints d ds).Pairwise fun a b => a.points ≤ b.points := by
  induction ds with
  | nil => simp [insertByPoints]
  | cons e es ih =>
    rcases List.pairwise_cons.mp h with ⟨he, hes⟩
    simp only [insertByPoints]
    split
    · rename_i hlt
      refine List.pairwise_cons.mpr ⟨?_, ih hes⟩
      intro x hx
      rcases mem_insertByPoints.mp hx with rfl | hx
      · omega
      · exact he x hx
    · rename_i hnlt
      refine List.pairwise_cons.mpr ⟨?_, h⟩
      intro x hx
      rcases List.mem_cons.mp hx with rfl | hx
      · omega
      · have := he x hx
        omega

theorem pointsSorted_sortByPoints (ds : List Deduction) :
    pointsSorted (sortByPoints ds) := by
  haveI : IsTrans Deduction (fun a b => a.points ≤ b.points) :=
    ⟨fun _ _ _ h1 h2 => le_trans h1 h2⟩
  unfold pointsSorted
  rw [List.chain'_iff_pairwise]
  induction ds with
  | nil => simp [sortByPoints]
  | cons d ds ih => exact pairwise_insertByPoints ih

theorem portLoop_ports_nodup (parse : String → Option ListeningPort) :
    ∀ (ls : List String) (seen : List Nat),
      (∀ r ∈ portLoop parse ls seen, r.port ∉ seen) ∧
      ((portLoop parse ls seen).map ListeningPort.port).Nodup := by
  intro ls
  induction ls with
  | nil =>
    intro seen
    simp [portLoop]
  | cons line ls ih =>
    intro seen
    simp only [portLoop]
    cases hp : parse line with
    | none => exact ih seen
    | some r =>
      by_cases hmem : r.port ∈ seen
      · simpa only [if_pos hmem] using ih seen
      · simp only [if_neg hmem]
        refine ⟨?_, ?_⟩
        · intro x hx
          rcases List.mem_cons.mp hx with rfl | hx
          · exact hmem
          · intro hxs
            exact (ih (r.port :: seen)).1 x hx (List.mem_cons_of_mem _ hxs)
        · simp only [List.map_cons]
          refine List.nodup_cons.mpr ⟨?_, (ih (r.port :: seen)).2⟩
          intro hcontra
          rcases List.mem_map.mp hcontra with ⟨x, hx, hpx⟩
          exact (ih (r.port :: seen)).1 x hx (hpx ▸ List.mem_cons_self _ _)

theorem parseLsofPorts_ports_nodup (raw : String) :
    ((parseLsofPorts raw).map ListeningPort.port).Nodup :=
  (portLoop_ports_nodup lsofLine (splitChar '\n' raw) []).2

theorem parseSsPorts_ports_nodup (raw : String) :
    ((parseSsPorts raw).map ListeningPort.port).Nodup :=
  (portLoop_ports_nodup ssLine (splitChar '\n' raw) []).2

theorem filter_if_singleton_ne {c : Prop} [Decidable c] {reg : Regression}
    {f : String} (h : reg.field ≠ f) :
    (if c then [reg] else []).filter (fun x => x.field = f) = [] := by
  split
  · simp [h]
  · rfl

theorem filter_if_singleton_not {c : Prop} [Decidable c] {reg : Regression}
    {f : String} (hc : ¬ c) :
    (if c then [reg] else []).filter (fun x => x.field = f) = [] := by
  rw [if_neg hc]
  rfl

/-! ## Claim theorems -/

/-- C1: for every snapshot `computeRiskScore` yields a score in `[0, 100]`,
and on an all-good snapshot (firewall, disk encryption and auto-updates all
`on`, at most 5 listening TCP ports, security audit and update status both
ok) it yields score 100 with no deductions. -/
theorem computeRiskScore_range_and_allgood (snap : NormalizedSnapshot) :
    (0 ≤ (computeRiskScore snap).score ∧ (computeRiskScore snap).score ≤ 100) ∧
    (snap.host.firewall = some .on → snap.host.diskEncryption = some .on →
      snap.host.autoUpdates = some .on →
      (snap.host.listeningTcp.getD []).length ≤ 5 →
      okOf snap.openclaw.securityAudit = true →
      okOf snap.openclaw.updateStatus = true →
      (computeRiskScore snap).score = 100 ∧
        (computeRiskScore snap).deductions = []) := by
  constructor
  · constructor
    · exact le_max_left 0 _
    · have b1 := fwStep_fst_le snap.host.firewall (100, [])
      have b2 := deStep_fst_le snap.host.diskEncryption
        (fwStep snap.host.firewall (100, []))
      have b3 := auStep_fst_le snap.host.autoUpdates
        (deStep snap.host.diskEncryption (fwStep snap.host.firewall (100, [])))
      have b4 := portStep_fst_le (snap.host.listeningTcp.getD [])
        (auStep snap.host.autoUpdates
          (deStep snap.host.diskEncryption (fwStep snap.host.firewall (100, []))))
      have b5 := auditStep_fst_le snap.openclaw.securityAudit
        (portStep (snap.host.listeningTcp.getD [])
          (auStep snap.host.autoUpdates
            (deStep snap.host.diskEncryption (fwStep snap.host.firewall (100, [])))))
      have b6 := updateStep_fst_le snap.openclaw.updateStatus
        (auditStep snap.openclaw.securityAudit
          (portStep (snap.host.listeningTcp.getD [])
            (auStep snap.host.autoUpdates
              (deStep snap.host.diskEncryption (fwStep snap.host.firewall (100, []))))))
      unfold computeRiskScore
      dsimp only
      omega
  · intro h1 h2 h3 h4 h5 h6
    have h4' : ¬ (5 < (snap.host.listeningTcp.getD []).length) := by omega
    unfold computeRiskScore
    rw [h1, h2, h3, fwStep_on, deStep_on, auStep_on, portStep_id _ h4',
      auditStep_ok _ h5, updateStep_ok _ h6]
    exact ⟨rfl, rfl⟩

/-- C1 witness: the all-good branch at a concrete snapshot. -/
theorem computeRiskScore_range_and_allgood_witness :
    (computeRiskScore ⟨⟨some .on, some .on, some .on, some .on, some []⟩,
      ⟨some ⟨true⟩, some ⟨true⟩⟩⟩).score = 100 ∧
    (computeRiskScore ⟨⟨some .on, some .on, some .on, some .on, some []⟩,
      ⟨some ⟨true⟩, some ⟨true⟩⟩⟩).deductions = [] :=
  (computeRiskScore_range_and_allgood
      ⟨⟨some .on, some .on, some .on, some .on, some []⟩,
        ⟨some ⟨true⟩, some ⟨true⟩⟩⟩).2
    (by decide) (by decide) (by decide) (by decide) (by decide) (by decide)

/-- C5 counterexample: a snapshot with firewall `unknown` (−15 pushed first)
and disk encryption `off` (−25 pushed second) makes `computeRiskScore`
return a deductions list that is not ascending by points. -/
theorem computeRiskScore_deductions_unsorted_cex :
    ¬ pointsSorted (computeRiskScore
      ⟨⟨some .unknown, some .off, some .on, some .on, some []⟩,
        ⟨some ⟨true⟩, some ⟨true⟩⟩⟩).deductions := by
  intro hs
  rw [show (computeRiskScore
      ⟨⟨some .unknown, some .off, some .on, some .on, some []⟩,
        ⟨some ⟨true⟩, some ⟨true⟩⟩⟩).deductions =
    [⟨"Host firewall state unknown", -15⟩, ⟨"Disk encryption is off", -25⟩]
    from rfl] at hs
  have h2 := (List.chain'_cons.mp hs).1
  simp at h2

/-- C5 as amended: `computeRiskScore` returns the deductions in rule
evaluation order; it is the sorted copy `renderRemediations` makes with
`sort((a, b) => a.points - b.points)` that is ascending by points (most
negative first), for every snapshot. -/
theorem sortByPoints_computeRiskScore_sorted (snap : NormalizedSnapshot) :
    pointsSorted (sortByPoints (computeRiskScore snap).deductions) :=
  pointsSorted_sortByPoints _

/-- C10: a snapshot with no firewall signal is scored exactly like one whose
firewall is `on` (no −30/−15 deduction), while a snapshot with no security
audit result still receives the −20 audit deduction (absence is scored like
a failed audit). -/
theorem computeRiskScore_missing_field_asymmetry :
    (∀ snap : NormalizedSnapshot, snap.host.firewall = none →
      computeRiskScore snap =
        computeRiskScore ⟨⟨some .on, snap.host.diskEncryption,
          snap.host.autoUpdates, snap.host.backups, snap.host.listeningTcp⟩,
          snap.openclaw⟩) ∧
    (∀ snap : NormalizedSnapshot, snap.openclaw.securityAudit = none →
      Deduction.mk "OpenClaw security audit has errors" (-20) ∈
        (computeRiskScore snap).deductions ∧
      computeRiskScore snap =
        computeRiskScore ⟨snap.host,
          ⟨some ⟨false⟩, snap.openclaw.updateStatus⟩⟩) := by
  constructor
  · intro snap h
    unfold computeRiskScore
    rw [h]
    have hfw : fwStep none = fwStep (some .on) := by
      funext st; simp [fwStep]
    rw [hfw]
  · intro snap h
    constructor
    · unfold computeRiskScore
      rw [h]
      apply updateStep_mem
      simp [auditStep, okOf]
    · unfold computeRiskScore
      rw [h]
      have hau : auditStep none = auditStep (some ⟨false⟩) := by
        funext st; simp [auditStep, okOf]
      rw [hau]

/-- C10 witness: both branches at concrete snapshots. -/
theorem computeRiskScore_missing_field_asymmetry_witness :
    (computeRiskScore ⟨⟨none, some .on, some .on, some .on, some []⟩,
        ⟨some ⟨true⟩, some ⟨true⟩⟩⟩ =
      computeRiskScore ⟨⟨some .on, some .on, some .on, some .on, some []⟩,
        ⟨some ⟨true⟩, some ⟨true⟩⟩⟩) ∧
    Deduction.mk "OpenClaw security audit has errors" (-20) ∈
      (computeRiskScore ⟨⟨some .on, some .on, some .on, some .on, some []⟩,
        ⟨none, some ⟨true⟩⟩⟩).deductions :=
  ⟨computeRiskScore_missing_field_asymmetry.1
      ⟨⟨none, some .on, some .on, some .on, some []⟩,
        ⟨some ⟨true⟩, some ⟨true⟩⟩⟩ rfl,
    (computeRiskScore_missing_field_asymmetry.2
      ⟨⟨some .on, some .on, some .on, some .on, some []⟩,
        ⟨none, some ⟨true⟩⟩⟩ rfl).1⟩

/-- C2: the BSD-style lsof sample line yields `{port: 3000, pid: 12345,
process: "node"}` and the Linux ss sample line yields `{port: 22, pid: 1234,
process: "sshd"}`; when two lines carry the same numeric port only the first
line's record survives, and the output ports of either parser are pairwise
distinct on every input. -/
theorem portParsers_samples_and_dedup :
    parseLsofPorts "node    12345   user   22u  IPv4  0x1234      0t0  TCP *:3000" =
      [⟨3000, some 12345, "node"⟩] ∧
    parseSsPorts "LISTEN 0      128    0.0.0.0:22          0.0.0.0:*         users:((\"sshd\",pid=1234,fd=3))" =
      [⟨22, some 1234, "sshd"⟩] ∧
    parseLsofPorts ("node 11 user 22u IPv4 0x1 0t0 TCP *:3000\n" ++
        "nginx 22 root 10u IPv4 0x2 0t0 TCP 127.0.0.1:3000") =
      [⟨3000, some 11, "node"⟩] ∧
    parseSsPorts ("LISTEN 0 128 0.0.0.0:22 0.0.0.0:* users:((\"sshd\",pid=7,fd=3))\n" ++
        "LISTEN 0 128 [::]:22 [::]:* users:((\"sshd2\",pid=8,fd=4))") =
      [⟨22, some 7, "sshd"⟩] ∧
    (∀ raw, ((parseLsofPorts raw).map ListeningPort.port).Nodup) ∧
    (∀ raw, ((parseSsPorts raw).map ListeningPort.port).Nodup) :=
  ⟨by decide, by decide, by decide, by decide,
    parseLsofPorts_ports_nodup, parseSsPorts_ports_nodup⟩

/-- C8 counterexample: the parsers accept any trailing digit run as a port
without validating the 1–65535 range; a 9-column lsof-style line ending in
`*:99999` yields a record with port 99999. -/
theorem portRecord_range_cex :
    parseLsofPorts "node 1 user 22u IPv4 0x1 0t0 TCP *:99999" =
      [⟨99999, some 1, "node"⟩] ∧
    65535 < (99999 : Nat) :=
  ⟨by decide, by decide⟩

/-- C8 as amended: every record's pid is an integer or null and the port
values within one parse are pairwise distinct; the port itself is whatever
natural number the matched digit suffix denotes — the parsers do not enforce
the 1–65535 range. -/
theorem portRecord_invariants (raw : String) :
    ((parseLsofPorts raw).map ListeningPort.port).Nodup ∧
    ((parseSsPorts raw).map ListeningPort.port).Nodup ∧
    (∀ r ∈ parseLsofPorts raw, r.pid = none ∨ ∃ n, r.pid = some n) ∧
    (∀ r ∈ parseSsPorts raw, r.pid = none ∨ ∃ n, r.pid = some n) := by
  refine ⟨parseLsofPorts_ports_nodup raw, parseSsPorts_ports_nodup raw, ?_, ?_⟩ <;>
    · intro r _
      cases hp : r.pid with
      | none => exact Or.inl rfl
      | some n => exact Or.inr ⟨n, rfl⟩

/-- C8 witness: the invariants at a concrete parse. -/
theorem portRecord_invariants_witness :
    ((parseLsofPorts "node 1 user 22u IPv4 0x1 0t0 TCP *:3000").map
      ListeningPort.port).Nodup ∧
    ((⟨3000, some 1, "node"⟩ : ListeningPort).pid = none ∨
      ∃ n, (⟨3000, some 1, "node"⟩ : ListeningPort).pid = some n) :=
  ⟨(portRecord_invariants "node 1 user 22u IPv4 0x1 0t0 TCP *:3000").1,
    (portRecord_invariants "node 1 user 22u IPv4 0x1 0t0 TCP *:3000").2.2.1
      ⟨3000, some 1, "node"⟩ (by decide)⟩

/-- C7 counterexample: on Linux a successful auto-updates probe whose output
matches no known pattern (`"static"` does not contain `enabled`, and the
rule has no off pattern at all) is classified `off`, not `unknown`. -/
theorem linuxAutoUpdates_no_match_not_unknown_cex :
    linuxAutoUpdatesState ⟨true, some "static"⟩ = .off ∧
    testCI "enabled" "static" = false ∧
    linuxAutoUpdatesState ⟨true, some "static"⟩ ≠ .unknown :=
  ⟨by decide, by decide, by decide⟩

/-- C7 as amended: a failed invocation (`ok = false`) always yields
`unknown`; `on` is only ever derived from the signal's positive pattern
matching; and a successful command whose text matches no pattern yields
`unknown` for every signal except Linux auto-updates, which yields `off`
(never `unknown`) whenever the command succeeded. -/
theorem signalStates_unknown_default :
    (∀ r : CollectorResultS, r.ok = false →
      darwinFirewallState r = .unknown ∧ darwinDiskEncryptionState r = .unknown ∧
      darwinAutoUpdatesState r = .unknown ∧ darwinBackupsState r = .unknown ∧
      linuxFirewallState r = .unknown ∧ linuxDiskEncryptionState r = .unknown ∧
      linuxAutoUpdatesState r = .unknown) ∧
    (∀ r : CollectorResultS,
      (darwinFirewallState r = .on →
        testCI "enabled" (r.value.getD "") = true) ∧
      (darwinDiskEncryptionState r = .on →
        testCI "FileVault is On" (r.value.getD "") = true) ∧
      (darwinAutoUpdatesState r = .on →
        testCI "on" (r.value.getD "") = true) ∧
      (darwinBackupsState r = .on →
        testCI "Running" (r.value.getD "") = true) ∧
      (linuxFirewallState r = .on →
        testCI "Status: active" (r.value.getD "") = true) ∧
      linuxDiskEncryptionState r ≠ .on ∧
      (linuxAutoUpdatesState r = .on →
        testCI "enabled" (r.value.getD "") = true)) ∧
    (∀ r : CollectorResultS, r.ok = true →
      (testCI "enabled" (r.value.getD "") = false →
        testCI "disabled" (r.value.getD "") = false →
        darwinFirewallState r = .unknown) ∧
      (testCI "FileVault is On" (r.value.getD "") = false →
        testCI "Off" (r.value.getD "") = false →
        darwinDiskEncryptionState r = .unknown) ∧
      (testCI "on" (r.value.getD "") = false →
        testCI "off" (r.value.getD "") = false →
        darwinAutoUpdatesState r = .unknown) ∧
      (testCI "Running" (r.value.getD "") = false →
        darwinBackupsState r = .unknown) ∧
      (testCI "Status: active" (r.value.getD "") = false →
        testCI "inactive" (r.value.getD "") = false →
        linuxFirewallState r = .unknown) ∧
      linuxDiskEncryptionState r = .unknown ∧
      linuxAutoUpdatesState r ≠ .unknown) := by
  refine ⟨?_, ?_, ?_⟩
  · intro r h
    simp [darwinFirewallState, darwinDiskEncryptionState, darwinAutoUpdatesState,
      darwinBackupsState, linuxFirewallState, linuxDiskEncryptionState,
      linuxAutoUpdatesState, h]
  · intro r
    refine ⟨?_, ?_, ?_, ?_, ?_, ?_, ?_⟩
    · intro h
      unfold darwinFirewallState at h
      split_ifs at h
      all_goals simp_all
    · intro h
      unfold darwinDiskEncryptionState at h
      split_ifs at h
      all_goals simp_all
    · intro h
      unfold darwinAutoUpdatesState at h
      split_ifs at h
      all_goals simp_all
    · intro h
      unfold darwinBackupsState at h
      split_ifs at h
      all_goals simp_all
    · intro h
      unfold linuxFirewallState at h
      split_ifs at h
      all_goals simp_all
    · simp [linuxDiskEncryptionState]
    · intro h
      unfold linuxAutoUpdatesState at h
      split_ifs at h
      all_goals simp_all
  · intro r hok
    refine ⟨?_, ?_, ?_, ?_, ?_, ?_, ?_⟩
    · intro hp1 hp2
      simp [darwinFirewallState, hok, hp1, hp2]
    · intro hp1 hp2
      simp [darwinDiskEncryptionState, hok, hp1, hp2]
    · intro hp1 hp2
      simp [darwinAutoUpdatesState, hok, hp1, hp2]
    · intro hp1
      simp [darwinBackupsState, hok, hp1]
    · intro hp1 hp2
      simp [linuxFirewallState, hok, hp1, hp2]
    · simp [linuxDiskEncryptionState]
    · simp only [linuxAutoUpdatesState, hok, if_true]
      split <;> simp

/-- C7 witness: the failed-invocation branch at a concrete collector
result. -/
theorem signalStates_unknown_default_witness :
    darwinFirewallState ⟨false, none⟩ = .unknown ∧
    linuxAutoUpdatesState ⟨true, some "enabled"⟩ ≠ .unknown :=
  ⟨(signalStates_unknown_default.1 ⟨false, none⟩ rfl).1,
    (signalStates_unknown_default.2.2 ⟨true, some "enabled"⟩ rfl).2.2.2.2.2.2⟩

/-- C3: previous firewall `on` and latest firewall `off` produce exactly one
high-severity regression on field `host.firewall`; when neither previous nor
latest firewall is `on`, no firewall regression is produced. -/
theorem monitor_firewall_regression :
    (∀ previous latest : NormalizedSnapshot,
      previous.host.firewall = some .on → latest.host.firewall = some .off →
      (monitorRegressions previous latest).filter
          (fun r => r.field = "host.firewall") =
        [⟨"host.firewall", "on", "off", .high⟩]) ∧
    (∀ previous latest : NormalizedSnapshot,
      previous.host.firewall ≠ some .on → latest.host.firewall ≠ some .on →
      (monitorRegressions previous latest).filter
          (fun r => r.field = "host.firewall") = []) := by
  constructor
  · intro previous latest h1 h2
    simp only [monitorRegressions, List.filter_append]
    rw [if_pos (show previous.host.firewall = some SignalState.on ∧
        latest.host.firewall ≠ some SignalState.on from ⟨h1, by simp [h2]⟩)]
    rw [filter_if_singleton_ne (by simp), filter_if_singleton_ne (by simp),
      filter_if_singleton_ne (by simp), filter_if_singleton_ne (by simp)]
    simp [stateOrUnknown, stateStr, h2]
  · intro previous latest h1 h2
    simp only [monitorRegressions, List.filter_append]
    rw [filter_if_singleton_not (fun hc => h1 hc.1),
      filter_if_singleton_ne (by simp), filter_if_singleton_ne (by simp),
      filter_if_singleton_ne (by simp), filter_if_singleton_ne (by simp)]
    simp

/-- C3 witness: the two branches at concrete snapshot pairs. -/
theorem monitor_firewall_regression_witness :
    (monitorRegressions
        ⟨⟨some .on, some .on, some .on, some .on, some []⟩,
          ⟨some ⟨true⟩, some ⟨true⟩⟩⟩
        ⟨⟨some .off, some .on, some .on, some .on, some []⟩,
          ⟨some ⟨true⟩, some ⟨true⟩⟩⟩).filter
        (fun r => r.field = "host.firewall") =
      [⟨"host.firewall", "on", "off", .high⟩] ∧
    (monitorRegressions
        ⟨⟨some .off, some .on, some .on, some .on, some []⟩,
          ⟨some ⟨true⟩, some ⟨true⟩⟩⟩
        ⟨⟨some .off, some .on, some .on, some .on, some []⟩,
          ⟨some ⟨true⟩, some ⟨true⟩⟩⟩).filter
        (fun r => r.field = "host.firewall") = [] :=
  ⟨monitor_firewall_regression.1
      ⟨⟨some .on, some .on, some .on, some .on, some []⟩,
        ⟨some ⟨true⟩, some ⟨true⟩⟩⟩
      ⟨⟨some .off, some .on, some .on, some .on, some []⟩,
        ⟨some ⟨true⟩, some ⟨true⟩⟩⟩ rfl rfl,
    monitor_firewall_regression.2
      ⟨⟨some .off, some .on, some .on, some .on, some []⟩,
        ⟨some ⟨true⟩, some ⟨true⟩⟩⟩
      ⟨⟨some .off, some .on, some .on, some .on, some []⟩,
        ⟨some ⟨true⟩, some ⟨true⟩⟩⟩ (by decide) (by decide)⟩

/-- C4: previous ports `{80}` against latest ports `{80, 4444}` produce
exactly one medium regression on `host.listening.tcp` listing `4444` and the
counts 1 and 2; and whenever every latest port already occurs among the
previous ports (ports only removed), no port regression is produced. -/
theorem monitor_new_port_regression :
    (∀ (previous latest : NormalizedSnapshot) (p q r : ListeningPort),
      previous.host.listeningTcp = some [p] → p.port = 80 →
      latest.host.listeningTcp = some [q, r] → q.port = 80 → r.port = 4444 →
      (monitorRegressions previous latest).filter
          (fun x => x.field = "host.listening.tcp") =
        [⟨"host.listening.tcp", "1 ports", "2 ports (new: 4444)", .medium⟩]) ∧
    (∀ previous latest : NormalizedSnapshot,
      (∀ x ∈ latest.host.listeningTcp.getD [],
        x.port ∈ (previous.host.listeningTcp.getD []).map ListeningPort.port) →
      (monitorRegressions previous latest).filter
          (fun x => x.field = "host.listening.tcp") = []) := by
  constructor
  · intro previous latest p q r hprev hp hlat hq hr
    simp only [monitorRegressions, List.filter_append]
    rw [hprev, hlat]
    simp only [Option.getD_some, List.map_cons, List.map_nil, hp]
    rw [filter_if_singleton_ne (by simp), filter_if_singleton_ne (by simp),
      filter_if_singleton_ne (by simp)]
    rw [if_pos (show List.filter (fun x => decide (x.port ∉ ([80] : List Nat)))
        [q, r] ≠ ([] : List ListeningPort) from by simp [hq, hr])]
    rw [filter_if_singleton_ne (by simp)]
    simp [dedupFirst, hq, hr]
    exact ⟨rfl, rfl⟩
  · intro previous latest hsub
    simp only [monitorRegressions, List.filter_append]
    have hnew : (latest.host.listeningTcp.getD []).filter
        (fun x => x.port ∉
          (previous.host.listeningTcp.getD []).map ListeningPort.port) = [] := by
      rw [List.filter_eq_nil_iff]
      intro x hx
      simp [hsub x hx]
    rw [filter_if_singleton_ne (by simp), filter_if_singleton_ne (by simp),
      filter_if_singleton_ne (by simp),
      if_neg (fun hne => hne hnew),
      filter_if_singleton_ne (by simp)]
    simp

/-- C4 witness: the two branches at concrete snapshot pairs. -/
theorem monitor_new_port_regression_witness :
    (monitorRegressions
        ⟨⟨some .on, some .on, some .on, some .on, some [⟨80, none, "nginx"⟩]⟩,
          ⟨some ⟨true⟩, some ⟨true⟩⟩⟩
        ⟨⟨some .on, some .on, some .on, some .on,
            some [⟨80, none, "nginx"⟩, ⟨4444, none, "nc"⟩]⟩,
          ⟨some ⟨true⟩, some ⟨true⟩⟩⟩).filter
        (fun x => x.field = "host.listening.tcp") =
      [⟨"host.listening.tcp", "1 ports", "2 ports (new: 4444)", .medium⟩] ∧
    (monitorRegressions
        ⟨⟨some .on, some .on, some .on, some .on, some [⟨80, none, "nginx"⟩]⟩,
          ⟨some ⟨true⟩, some ⟨true⟩⟩⟩
        ⟨⟨some .on, some .on, some .on, some .on, some []⟩,
          ⟨some ⟨true⟩, some ⟨true⟩⟩⟩).filter
        (fun x => x.field = "host.listening.tcp") = [] :=
  ⟨monitor_new_port_regression.1
      ⟨⟨some .on, some .on, some .on, some .on, some [⟨80, none, "nginx"⟩]⟩,
        ⟨some ⟨true⟩, some ⟨true⟩⟩⟩
      ⟨⟨some .on, some .on, some .on, some .on,
          some [⟨80, none, "nginx"⟩, ⟨4444, none, "nc"⟩]⟩,
        ⟨some ⟨true⟩, some ⟨true⟩⟩⟩
      ⟨80, none, "nginx"⟩ ⟨80, none, "nginx"⟩ ⟨4444, none, "nc"⟩
      rfl rfl rfl rfl rfl,
    monitor_new_port_regression.2
      ⟨⟨some .on, some .on, some .on, some .on, some [⟨80, none, "nginx"⟩]⟩,
        ⟨some ⟨true⟩, some ⟨true⟩⟩⟩
      ⟨⟨some .on, some .on, some .on, some .on, some []⟩,
        ⟨some ⟨true⟩, some ⟨true⟩⟩⟩ (by decide)⟩

/-! ## Diff engine lemmas -/

theorem JVal.size_pos : ∀ v : JVal, 1 ≤ JVal.size v := by
  intro v
  cases v <;> simp [JVal.size]

theorem size_mem_arr {v : JVal} :
    ∀ {xs : List JVal}, v ∈ xs → JVal.size v ≤ JVal.sizeArr xs := by
  intro xs
  induction xs with
  | nil => intro h; cases h
  | cons x xs ih =>
    intro h
    rw [JVal.sizeArr]
    rcases List.mem_cons.mp h with rfl | h
    · omega
    · have := ih h
      omega

theorem size_mem_obj {v : JVal} :
    ∀ {fs : List (String × JVal)}, v ∈ fs.map Prod.snd →
      JVal.size v ≤ JVal.sizeObj fs := by
  intro fs
  induction fs with
  | nil => intro h; cases h
  | cons f fs ih =>
    intro h
    rcases f with ⟨k1, v1⟩
    rw [JVal.sizeObj]
    rw [List.map_cons] at h
    rcases List.mem_cons.mp h with rfl | h
    · omega
    · have := ih h
      omega

theorem lookup_mem_values {β : Type} (k : String) :
    ∀ (l : List (String × β)) (v : β),
      l.lookup k = some v → v ∈ l.map Prod.snd := by
  intro l
  induction l with
  | nil => intro v h; cases h
  | cons kv rest ih =>
    intro v h
    rcases kv with ⟨k1, v1⟩
    simp only [List.lookup] at h
    split at h
    · cases h
      simp
    · simp only [List.map_cons]
      exact List.mem_cons_of_mem _ (ih v h)

theorem jget_size_lt : ∀ {a v : JVal} {k : String},
    jget a k = some v → JVal.size v < JVal.size a := by
  intro a v k h
  unfold jget at h
  have hv := lookup_mem_values k (entries a) v h
  cases a with
  | null => simp [entries] at hv
  | bool c => simp [entries] at hv
  | num n => simp [entries] at hv
  | str s => simp [entries] at hv
  | arr xs =>
    simp only [entries, List.map_map] at hv
    have hxs : v ∈ xs := by
      have hcomp : (Prod.snd ∘ fun p : Nat × JVal => (Nat.repr p.1, p.2)) =
          Prod.snd := by
        funext p
        rfl
      rw [hcomp, List.enum_map_snd] at hv
      exact hv
    have hle := size_mem_arr hxs
    simp only [JVal.size]
    omega
  | obj fs =>
    simp only [entries] at hv
    have hle := size_mem_obj hv
    simp only [JVal.size]
    omega

theorem flatMap_congr {α β : Type} {l : List α} {F G : α → List β}
    (h : ∀ x ∈ l, F x = G x) : l.flatMap F = l.flatMap G := by
  induction l with
  | nil => rfl
  | cons x xs ih =>
    simp only [List.flatMap_cons]
    rw [h x (List.mem_cons_self x xs),
      ih fun y hy => h y (List.mem_cons_of_mem _ hy)]

theorem diffDeepF_congr : ∀ (f g : Nat) (a b : JVal) (pre : String),
    JVal.size a + JVal.size b ≤ f → JVal.size a + JVal.size b ≤ g →
    diffDeepF f a b pre = diffDeepF g a b pre := by
  intro f
  induction f with
  | zero =>
    intro g a b pre hf hg
    have ha := JVal.size_pos a
    have hb := JVal.size_pos b
    omega
  | succ f ih =>
    intro g a b pre hf hg
    cases g with
    | zero =>
      have ha := JVal.size_pos a
      have hb := JVal.size_pos b
      omega
    | succ g =>
      simp only [diffDeepF]
      apply flatMap_congr
      intro k _
      unfold diffKeyWith
      cases hA : jget a k <;> cases hB : jget b k
      · rfl
      · rfl
      · rfl
      · rename_i va vb
        dsimp only
        by_cases hobj : isObjLike va && isObjLike vb
        · rw [if_pos hobj, if_pos hobj]
          have hva := jget_size_lt hA
          have hvb := jget_size_lt hB
          exact ih g va vb _ (by omega) (by omega)
        · rw [if_neg hobj, if_neg hobj]

theorem diffDeepF_succ (fuel : Nat) (a b : JVal) (pre : String) :
    diffDeepF (fuel + 1) a b pre =
      (dedupFirst []
        ((entries a).map Prod.fst ++ (entries b).map Prod.fst)).flatMap
        (diffKeyWith (diffDeepF fuel) a b pre) := rfl

theorem diffDeepF_stable {f : Nat} {a b : JVal} {pre : String}
    (h : JVal.size a + JVal.size b ≤ f) :
    diffDeepF f a b pre = diffDeep a b pre :=
  diffDeepF_congr f (JVal.size a + JVal.size b) a b pre h le_rfl

theorem mem_dedupFirst {α : Type} [DecidableEq α] (x : α) :
    ∀ (l seen : List α), x ∈ dedupFirst seen l ↔ x ∈ l ∧ x ∉ seen := by
  intro l
  induction l with
  | nil =>
    intro seen
    simp [dedupFirst]
  | cons n ns ih =>
    intro seen
    by_cases hn : n ∈ seen
    · rw [show dedupFirst seen (n :: ns) = dedupFirst seen ns from by
        simp [dedupFirst, hn]]
      rw [ih seen, List.mem_cons]
      constructor
      · rintro ⟨hx, hs⟩
        exact ⟨Or.inr hx, hs⟩
      · rintro ⟨rfl | hx, hs⟩
        · exact absurd hn hs
        · exact ⟨hx, hs⟩
    · rw [show dedupFirst seen (n :: ns) = n :: dedupFirst (n :: seen) ns from by
        simp [dedupFirst, hn]]
      rw [List.mem_cons, ih (n :: seen)]
      constructor
      · rintro (rfl | ⟨hx, hs⟩)
        · exact ⟨List.mem_cons_self _ _, hn⟩
        · exact ⟨List.mem_cons_of_mem _ hx,
            fun hxs => hs (List.mem_cons_of_mem _ hxs)⟩
      · rintro ⟨hmem, hs⟩
        rcases List.mem_cons.mp hmem with rfl | hx
        · exact Or.inl rfl
        · by_cases hxn : x = n
          · exact Or.inl hxn
          · refine Or.inr ⟨hx, fun hc => ?_⟩
            rcases List.mem_cons.mp hc with rfl | hc
            · exact hxn rfl
            · exact hs hc

theorem mem_keys_swap {k : String} {la lb : List String} :
    k ∈ dedupFirst [] (la ++ lb) ↔ k ∈ dedupFirst [] (lb ++ la) := by
  rw [mem_dedupFirst, mem_dedupFirst]
  simp only [List.mem_append]
  tauto

theorem mem_addedPaths {q : String} {l : List DiffEntry} :
    q ∈ addedPaths l ↔ ∃ e, e ∈ l ∧ e.kind = DiffKind.added ∧ e.path = q := by
  unfold addedPaths
  rw [List.mem_map]
  constructor
  · rintro ⟨e, he, rfl⟩
    rw [List.mem_filter] at he
    exact ⟨e, he.1, by simpa using he.2, rfl⟩
  · rintro ⟨e, hl, hk, rfl⟩
    exact ⟨e, List.mem_filter.mpr ⟨hl, by simpa using hk⟩, rfl⟩

theorem mem_removedPaths {q : String} {l : List DiffEntry} :
    q ∈ removedPaths l ↔ ∃ e, e ∈ l ∧ e.kind = DiffKind.removed ∧ e.path = q := by
  unfold removedPaths
  rw [List.mem_map]
  constructor
  · rintro ⟨e, he, rfl⟩
    rw [List.mem_filter] at he
    exact ⟨e, he.1, by simpa using he.2, rfl⟩
  · rintro ⟨e, hl, hk, rfl⟩
    exact ⟨e, List.mem_filter.mpr ⟨hl, by simpa using hk⟩, rfl⟩

theorem mem_addedPaths_flatMap {q : String} {ks : List String}
    {F : String → List DiffEntry} :
    q ∈ addedPaths (ks.flatMap F) ↔ ∃ k, k ∈ ks ∧ q ∈ addedPaths (F k) := by
  rw [mem_addedPaths]
  constructor
  · rintro ⟨e, he, hk, rfl⟩
    rcases List.mem_flatMap.mp he with ⟨k, hks, hef⟩
    exact ⟨k, hks, mem_addedPaths.mpr ⟨e, hef, hk, rfl⟩⟩
  · rintro ⟨k, hks, hq⟩
    rcases mem_addedPaths.mp hq with ⟨e, hef, hk, rfl⟩
    exact ⟨e, List.mem_flatMap.mpr ⟨k, hks, hef⟩, hk, rfl⟩

theorem mem_removedPaths_flatMap {q : String} {ks : List String}
    {F : String → List DiffEntry} :
    q ∈ removedPaths (ks.flatMap F) ↔ ∃ k, k ∈ ks ∧ q ∈ removedPaths (F k) := by
  rw [mem_removedPaths]
  constructor
  · rintro ⟨e, he, hk, rfl⟩
    rcases List.mem_flatMap.mp he with ⟨k, hks, hef⟩
    exact ⟨k, hks, mem_removedPaths.mpr ⟨e, hef, hk, rfl⟩⟩
  · rintro ⟨k, hks, hq⟩
    rcases mem_removedPaths.mp hq with ⟨e, hef, hk, rfl⟩
    exact ⟨e, List.mem_flatMap.mpr ⟨k, hks, hef⟩, hk, rfl⟩

theorem diffKeyWith_symm {n : Nat}
    (ih : ∀ (a b : JVal) (pre q : String),
      q ∈ addedPaths (diffDeepF n a b pre) ↔
        q ∈ removedPaths (diffDeepF n b a pre))
    (a b : JVal) (pre k q : String) :
    q ∈ addedPaths (diffKeyWith (diffDeepF n) a b pre k) ↔
      q ∈ removedPaths (diffKeyWith (diffDeepF n) b a pre k) := by
  unfold diffKeyWith
  cases hA : jget a k <;> cases hB : jget b k
  · simp [addedPaths, removedPaths]
  · simp [addedPaths, removedPaths]
  · simp [addedPaths, removedPaths]
  · rename_i va vb
    dsimp only
    by_cases hobj : isObjLike va && isObjLike vb
    · have hobj2 : (isObjLike vb && isObjLike va) = true := by
        rwa [Bool.and_comm] at hobj
      rw [if_pos hobj, if_pos hobj2]
      exact ih va vb (joinPath pre k) q
    · have hobj2 : ¬ (isObjLike vb && isObjLike va) = true := fun hc =>
        hobj (by rwa [Bool.and_comm] at hc)
      rw [if_neg hobj, if_neg hobj2]
      split_ifs <;> simp [addedPaths, removedPaths]

theorem diffDeepF_symm : ∀ (fuel : Nat) (a b : JVal) (pre q : String),
    q ∈ addedPaths (diffDeepF fuel a b pre) ↔
      q ∈ removedPaths (diffDeepF fuel b a pre) := by
  intro fuel
  induction fuel with
  | zero =>
    intro a b pre q
    simp [diffDeepF, addedPaths, removedPaths]
  | succ n ih =>
    intro a b pre q
    simp only [diffDeepF]
    rw [mem_addedPaths_flatMap, mem_removedPaths_flatMap]
    constructor
    · rintro ⟨k, hk, hq⟩
      exact ⟨k, mem_keys_swap.mp hk, (diffKeyWith_symm ih a b pre k q).mp hq⟩
    · rintro ⟨k, hk, hq⟩
      exact ⟨k, mem_keys_swap.mp hk, (diffKeyWith_symm ih a b pre k q).mpr hq⟩

/-- C9: the set of paths `diffDeep(a, b)` reports as `added` is exactly the
set of paths `diffDeep(b, a)` reports as `removed`, and vice versa. -/
theorem diffDeep_symmetry (a b : JVal) (q : String) :
    (q ∈ addedPaths (diffDeep a b "") ↔ q ∈ removedPaths (diffDeep b a "")) ∧
    (q ∈ removedPaths (diffDeep a b "") ↔ q ∈ addedPaths (diffDeep b a "")) := by
  constructor
  · unfold diffDeep
    rw [Nat.add_comm (JVal.size b) (JVal.size a)]
    exact diffDeepF_symm _ a b "" q
  · unfold diffDeep
    rw [Nat.add_comm (JVal.size a) (JVal.size b)]
    exact (diffDeepF_symm _ b a "" q).symm

/-- C6 counterexample: `diffDeep` recurses into arrays instead of treating
them as opaque leaves: on the mappings `{k: [1]}` and `{k: [1, 2]}` it
reports an `added` entry at the per-element path `k.1` and no `changed`
entry at `k`. -/
theorem diffDeep_array_not_opaque_cex :
    diffDeep (.obj [("k", .arr [.num 1])]) (.obj [("k", .arr [.num 1, .num 2])]) "" =
      [⟨"k.1", .added, none, some (.num 2)⟩] := rfl

/-- C6 as amended: array values are recursed into like objects, with element
indices as keys: for mappings holding arrays at a common key `k`, the diff
is exactly the recursive element-wise diff of the two arrays with path
prefix `k`, not a single `changed` entry at `k`. -/
theorem diffDeep_array_recurse (k : String) (xs ys : List JVal) :
    diffDeep (.obj [(k, .arr xs)]) (.obj [(k, .arr ys)]) "" =
      diffDeep (.arr xs) (.arr ys) k := by
  have hx : JVal.size (JVal.obj [(k, JVal.arr xs)]) =
      1 + JVal.size (JVal.arr xs) := by
    simp [JVal.size, JVal.sizeObj]
  have hy : JVal.size (JVal.obj [(k, JVal.arr ys)]) =
      1 + JVal.size (JVal.arr ys) := by
    simp [JVal.size, JVal.sizeObj]
  unfold diffDeep
  rw [hx, hy]
  rw [show 1 + JVal.size (JVal.arr xs) + (1 + JVal.size (JVal.arr ys)) =
      (JVal.size (JVal.arr xs) + JVal.size (JVal.arr ys) + 1) + 1 from by omega]
  rw [diffDeepF_succ]
  rw [show (entries (JVal.obj [(k, JVal.arr xs)])).map Prod.fst ++
      (entries (JVal.obj [(k, JVal.arr ys)])).map Prod.fst = [k, k] from by
    simp [entries]]
  rw [show dedupFirst ([] : List String) [k, k] = [k] from by
    simp [dedupFirst]]
  rw [List.flatMap_cons, List.flatMap_nil, List.append_nil]
  unfold diffKeyWith
  rw [show jget (JVal.obj [(k, JVal.arr xs)]) k = some (JVal.arr xs) from by
    simp [jget, entries, List.lookup]]
  rw [show jget (JVal.obj [(k, JVal.arr ys)]) k = some (JVal.arr ys) from by
    simp [jget, entries, List.lookup]]
  dsimp only
  rw [show joinPath "" k = k from by simp [joinPath]]
  rw [show (isObjLike (JVal.arr xs) && isObjLike (JVal.arr ys)) = true from rfl]
  rw [if_pos rfl]
  exact diffDeepF_stable (by omega)

end OCSec
